import Mathlib

/-
Verification of the response-normalization pipeline of the ROI-calculator
frontend: the `prepareContent` / `formatCurrency` helpers and the
`extractChartDataFromResponse` chart extractor from `src/frontend/src/App.tsx`,
the `\frac`-delimiting pass of the richer `prepareContent` in the chat
component, and the context-version effect of `ChatInterface`.

The JavaScript string/regex operations are embedded as executable scanners
over `List Char`.  JS numbers are IEEE-754 doubles; they are modelled here as
exact rationals (`ℚ`), which agrees with JS on every value appearing in the
properties below (integers far below 2^53 and short decimal fractions), except
that the model's division by zero yields 0 where JS would yield
Infinity or NaN.  Randomness (session-id generation) is modelled by an
explicitly passed fresh suffix.
-/

namespace ROICalc

/- Rational arithmetic must evaluate inside `decide` proofs below, so the
four core operations that Batteries marks `@[irreducible]` are restored to
their normal transparency for this file. -/
attribute [local semireducible] Rat.add Rat.mul Rat.sub Rat.inv

/-- JS line terminators (`\n`, `\r`, U+2028, U+2029): the characters that
`^` matches after under the `m` flag and that `.` never matches. -/
def jsLineTerm (c : Char) : Bool :=
  c = '\n' || c = '\r' || c = '\u2028' || c = '\u2029'

/-- The JS `\s` character class (whitespace and line terminators). -/
def jsSpace (c : Char) : Bool :=
  c = ' ' || c = '\t' || c = '\n' || c = '\x0b' || c = '\x0c' || c = '\r' ||
  c = '\u00a0' || c = '\u1680' || ('\u2000' ≤ c && c ≤ '\u200a') ||
  c = '\u2028' || c = '\u2029' || c = '\u202f' || c = '\u205f' ||
  c = '\u3000' || c = '\ufeff'

/-- Value of a run of decimal digit characters. -/
def digitsToNat (l : List Char) : Nat :=
  l.foldl (fun acc c => 10 * acc + (c.toNat - '0'.toNat)) 0

/-- Exact rational value of `digits . digits`. -/
def decimalValue (ip fp : List Char) : ℚ :=
  (digitsToNat ip : ℚ) + (digitsToNat fp : ℚ) / ((10 ^ fp.length : ℕ) : ℚ)

/-- Model of JS `parseFloat`: skip leading whitespace, optional sign,
`digits[.digits] | .digits`, optional exponent; trailing junk ignored;
`none` models NaN (no parsable numeral; the `Infinity` literal is not
modelled and also yields `none`). -/
def jsParseFloat (s : List Char) : Option ℚ :=
  let l := s.dropWhile jsSpace
  let sgnd : ℚ × List Char :=
    match l with
    | '+' :: r => (1, r)
    | '-' :: r => (-1, r)
    | _ => (1, l)
  let sgn := sgnd.1
  let l1 := sgnd.2
  let ipr := l1.span Char.isDigit
  let ip := ipr.1
  let fpr : List Char × List Char :=
    match ipr.2 with
    | '.' :: r => r.span Char.isDigit
    | _ => ([], ipr.2)
  let fp := fpr.1
  let l3 : List Char :=
    match ipr.2 with
    | '.' :: _ => fpr.2
    | _ => ipr.2
  if ip.isEmpty && fp.isEmpty then none
  else
    let mant := sgn * decimalValue ip fp
    match l3 with
    | 'e' :: r | 'E' :: r =>
      let esr : Bool × List Char :=
        match r with
        | '+' :: r2 => (false, r2)
        | '-' :: r2 => (true, r2)
        | _ => (false, r)
      let ed := esr.2.takeWhile Char.isDigit
      if ed.isEmpty then some mant
      else if esr.1 then some (mant / ((10 ^ digitsToNat ed : ℕ) : ℚ))
      else some (mant * ((10 ^ digitsToNat ed : ℕ) : ℚ))
    | _ => some mant

/-- `parseFloat(x)` where a NaN result is subsequently treated as 0
(either via `|| 0` in the source or via the rational model of NaN
propagation noted in the header). -/
def jsParseFloatOr0 (s : List Char) : ℚ :=
  (jsParseFloat s).getD 0

/-- Value of a run of hexadecimal digit characters. -/
def hexToNat (l : List Char) : Nat :=
  l.foldl (fun acc c =>
    16 * acc +
      (if c.isDigit then c.toNat - '0'.toNat
       else if 'a' ≤ c && c ≤ 'f' then c.toNat - 'a'.toNat + 10
       else c.toNat - 'A'.toNat + 10)) 0

/-- Model of JS `parseInt` with no radix argument: skip whitespace, optional
sign, auto-detected `0x` prefix, leading digits; `none` models NaN. -/
def jsParseInt (s : List Char) : Option Int :=
  let l := s.dropWhile jsSpace
  let sgnd : Int × List Char :=
    match l with
    | '+' :: r => (1, r)
    | '-' :: r => (-1, r)
    | _ => (1, l)
  match sgnd.2 with
  | '0' :: 'x' :: r | '0' :: 'X' :: r =>
    let hs := r.takeWhile (fun c =>
      c.isDigit || ('a' ≤ c && c ≤ 'f') || ('A' ≤ c && c ≤ 'F'))
    if hs.isEmpty then none else some (sgnd.1 * (hexToNat hs : Int))
  | l1 =>
    let ds := l1.takeWhile Char.isDigit
    if ds.isEmpty then none else some (sgnd.1 * (digitsToNat ds : Int))

/-- Insert a `,` after every three characters of a reversed digit string. -/
def groupRev : List Char → List Char
  | a :: b :: c :: d :: rest => a :: b :: c :: ',' :: groupRev (d :: rest)
  | l => l

/-- `Number(n).toLocaleString()` for a nonnegative integer under the en-US
default locale: decimal digits with `,` thousands separators.  (The JS double
is exact for the magnitudes exercised here.) -/
def natThousands (n : Nat) : List Char :=
  (groupRev (Nat.repr n).data.reverse).reverse

namespace App

/-- The bullet pass `/^-([^\s])/gm → '- $1'` of `prepareContent`
(App.tsx line 274): a line-start `-` followed by a non-whitespace character
gets a space inserted.  The boolean tracks whether the scanner sits at a
line start. -/
def bulletScan : Bool → List Char → List Char
  | _, [] => []
  | atStart, c :: rest =>
    if atStart && c = '-' then
      match rest with
      | [] => ['-']
      | d :: _ =>
        if jsSpace d then '-' :: bulletScan false rest
        else '-' :: ' ' :: bulletScan false rest
    else c :: bulletScan (jsLineTerm c) rest

/-- Matcher for `\$(\d[\d,]*(?:\.\d+)?)` at the head of the list; returns
the matched characters and the rest. -/
def currencyTokenAt : List Char → Option (List Char × List Char)
  | '$' :: c :: rest =>
    if c.isDigit then
      let runr := rest.span (fun d => d.isDigit || d = ',')
      let frr : List Char × List Char :=
        match runr.2 with
        | '.' :: d :: r =>
          if d.isDigit then
            let dsr := r.span Char.isDigit
            ('.' :: d :: dsr.1, dsr.2)
          else ([], '.' :: d :: r)
        | l => ([], l)
      some ('$' :: c :: (runr.1 ++ frr.1), frr.2)
    else none
  | _ => none

/-- The currency-protection pass of `prepareContent` (App.tsx lines 278-281):
each `$<digits>` token is replaced by `\$<digits>` (the callback returns
`'\\$' + match.substring(1)`).  Fuel-driven left-to-right global replace. -/
def currencyScanAux : Nat → List Char → List Char
  | 0, l => l
  | fuel + 1, l =>
    match l with
    | [] => []
    | c :: rest =>
      match currencyTokenAt (c :: rest) with
      | some (m, r) => '\\' :: (m ++ currencyScanAux fuel r)
      | none => c :: currencyScanAux fuel rest

/-- The line-break pass `/([^\n])\n([^\n])/g → '$1\n\n$2'` of
`prepareContent` (App.tsx line 284).  A match consumes all three characters,
so scanning resumes after the second one, exactly as JS global replace. -/
def newlineScan : List Char → List Char
  | a :: '\n' :: b :: rest =>
    if a = '\n' ∨ b = '\n' then a :: newlineScan ('\n' :: b :: rest)
    else a :: '\n' :: '\n' :: b :: newlineScan rest
  | a :: rest => a :: newlineScan rest
  | [] => []

def bulletFix (s : String) : String := ⟨bulletScan true s.data⟩

def currencyEscape (s : String) : String := ⟨currencyScanAux s.data.length s.data⟩

def lineBreakFix (s : String) : String := ⟨newlineScan s.data⟩

/-- `prepareContent` from App.tsx lines 270-287: empty-input guard, bullet
normalization, currency protection, single-newline doubling, in that order. -/
def prepareContent (text : String) : String :=
  if text = "" then "" else lineBreakFix (currencyEscape (bulletFix text))

/-- Matcher for `\$(\d+)(?=\D)` at the head: a `$`-prefixed digit run whose
following character exists and is a non-digit (the lookahead is not
consumed).  Returns the replacement `'$' + Number(digits).toLocaleString()`
and the rest starting at the lookahead character. -/
def currencyGroupAt : List Char → Option (List Char × List Char)
  | '$' :: rest =>
    let dsr := rest.span Char.isDigit
    if dsr.1.isEmpty then none
    else
      match dsr.2 with
      | [] => none
      | _ :: _ => some ('$' :: natThousands (digitsToNat dsr.1), dsr.2)
  | _ => none

def formatCurrencyAux : Nat → List Char → List Char
  | 0, l => l
  | _ + 1, [] => []
  | fuel + 1, c :: rest =>
    match currencyGroupAt (c :: rest) with
    | some (out, r) => out ++ formatCurrencyAux fuel r
    | none => c :: formatCurrencyAux fuel rest

/-- `formatCurrency` from App.tsx lines 290-294 (identically in
ChatInterface.tsx lines 161-165): rewrite `$<digits>` with thousands
separators, but only where a non-digit character actually follows. -/
def formatCurrency (s : String) : String := ⟨formatCurrencyAux s.data.length s.data⟩

/-- Case-insensitive literal match of `pat` (given lowercase) at the head;
returns the rest on success (the `i` flag of the extraction regexes). -/
def ciLiteral : List Char → List Char → Option (List Char)
  | [], l => some l
  | p :: ps, c :: cs => if c.toLower = p then ciLiteral ps cs else none
  | _ :: _, [] => none

/-- The amount capture `\d+(?:,\d{3})*(?:\.\d+)?`: comma groups of exactly
three digits. -/
def commaGroups : List Char → List Char × List Char
  | ',' :: a :: b :: c :: rest =>
    if a.isDigit && b.isDigit && c.isDigit then
      let gr := commaGroups rest
      (',' :: a :: b :: c :: gr.1, gr.2)
    else ([], ',' :: a :: b :: c :: rest)
  | l => ([], l)

/-- The optional fraction `(?:\.\d+)?`: a dot followed by at least one
digit, taken greedily; otherwise nothing. -/
def fracPart : List Char → List Char × List Char
  | '.' :: c :: rest =>
    if c.isDigit then
      ('.' :: c :: rest.takeWhile Char.isDigit, rest.dropWhile Char.isDigit)
    else ([], '.' :: c :: rest)
  | l => ([], l)

/-- Capture of `(\d+(?:,\d{3})*(?:\.\d+)?)` at the head of the list. -/
def amountAt (l : List Char) : Option (List Char) :=
  let ds := l.takeWhile Char.isDigit
  if ds.isEmpty then none
  else
    let gr := commaGroups (l.dropWhile Char.isDigit)
    let fr := fracPart gr.2
    some (ds ++ gr.1 ++ fr.1)

/-- `\$\s*(\d+(?:,\d{3})*(?:\.\d+)?)` at the head: a literal `$`, greedy
whitespace, then an amount capture. -/
def dollarAmountAt : List Char → Option (List Char)
  | '$' :: rest => amountAt (rest.dropWhile jsSpace)
  | _ => none

/-- `(\d+(?:\.\d+)?)%` at the head, as in the ROI regex. -/
def numPercentAt (l : List Char) : Option (List Char) :=
  let ds := l.takeWhile Char.isDigit
  if ds.isEmpty then none
  else
    let fr := fracPart (l.dropWhile Char.isDigit)
    match fr.2 with
    | '%' :: _ => some (ds ++ fr.1)
    | _ => none

/-- `(\d+(?:\.\d+)?)\s*(?:months|years)` at the head, as in the payback
regex (case-insensitive unit). -/
def numUnitAt (l : List Char) : Option (List Char) :=
  let ds := l.takeWhile Char.isDigit
  if ds.isEmpty then none
  else
    let fr := fracPart (l.dropWhile Char.isDigit)
    let r := fr.2.dropWhile jsSpace
    if (ciLiteral "months".data r).isSome || (ciLiteral "years".data r).isSome then
      some (ds ++ fr.1)
    else none

/-- The lazy gap `.*?` followed by `after`: try `after` at the current
position, else consume one non-line-terminator gap character and retry
(`.` never matches a line terminator). -/
def gapSearch (after : List Char → Option (List Char)) : List Char → Option (List Char)
  | [] => none
  | c :: rest =>
    match after (c :: rest) with
    | some cap => some cap
    | none => if jsLineTerm c then none else gapSearch after rest

/-- Leftmost match of `pat.*?<after>`: the first position where the literal
`pat` matches case-insensitively and the remainder completes. -/
def searchPattern (pat : List Char) (after : List Char → Option (List Char)) :
    List Char → Option (List Char)
  | [] => match ciLiteral pat [] with
    | some l' => gapSearch after l'
    | none => none
  | c :: rest =>
    match ciLiteral pat (c :: rest) with
    | some l' =>
      match gapSearch after l' with
      | some cap => some cap
      | none => searchPattern pat after rest
    | none => searchPattern pat after rest

/-- Strip the `,` characters of a capture, as `.replace(/,/g, '')`. -/
def stripCommas (l : List Char) : List Char := l.filter (fun c => c ≠ ',')

/-- `parseFloat` applied to a captured group after comma removal.  Captured
groups always have the shape `digits[.digits]` once commas are stripped, on
which this agrees exactly with JS `parseFloat`. -/
def parseCapture (l : List Char) : ℚ :=
  let l' := stripCommas l
  match l'.dropWhile Char.isDigit with
  | '.' :: rest =>
    decimalValue (l'.takeWhile Char.isDigit) (rest.takeWhile Char.isDigit)
  | _ => (digitsToNat (l'.takeWhile Char.isDigit) : ℚ)

/-- Strict variant of `parseCapture`: succeeds only on a full
`digits[.digits]` shape (after comma removal); `none` models a NaN from
`parseFloat` on a matched group, which the source never guards against. -/
def parseCaptureStrict (l : List Char) : Option ℚ :=
  let l' := stripCommas l
  if (l'.takeWhile Char.isDigit).isEmpty then none
  else
    match l'.dropWhile Char.isDigit with
    | [] => some (digitsToNat (l'.takeWhile Char.isDigit) : ℚ)
    | '.' :: rest =>
      if (rest.takeWhile Char.isDigit).isEmpty then none
      else if (rest.dropWhile Char.isDigit).isEmpty then
        some (decimalValue (l'.takeWhile Char.isDigit) (rest.takeWhile Char.isDigit))
      else none
    | _ => none

/-- Capture of `/ROI.*?(\d+(?:\.\d+)?)%/i` (App.tsx line 454). -/
def roiCapture (t : List Char) : Option (List Char) :=
  searchPattern "roi".data numPercentAt t

/-- Capture of `/savings.*?\$\s*(\d+(?:,\d{3})*(?:\.\d+)?)/i` (line 460). -/
def savingsCapture (t : List Char) : Option (List Char) :=
  searchPattern "savings".data dollarAmountAt t

/-- Capture of `/payback period.*?(\d+(?:\.\d+)?)\s*(?:months|years)/i`
(line 466). -/
def paybackCapture (t : List Char) : Option (List Char) :=
  searchPattern "payback period".data numUnitAt t

/-- Capture of `/NPV.*?\$\s*(\d+(?:,\d{3})*(?:\.\d+)?)/i` (line 472). -/
def npvCapture (t : List Char) : Option (List Char) :=
  searchPattern "npv".data dollarAmountAt t

/-- Capture of `/total cost.*?\$\s*(\d+(?:,\d{3})*(?:\.\d+)?)/i` (line 478). -/
def totalCostCapture (t : List Char) : Option (List Char) :=
  searchPattern "total cost".data dollarAmountAt t

/-- Capture of `/total benefit.*?\$\s*(\d+(?:,\d{3})*(?:\.\d+)?)/i` (line 487). -/
def totalBenefitCapture (t : List Char) : Option (List Char) :=
  searchPattern "total benefit".data dollarAmountAt t

/-- Capture of `/annual benefit.*?\$\s*(\d+(?:,\d{3})*(?:\.\d+)?)/i` (line 496). -/
def annualBenefitCapture (t : List Char) : Option (List Char) :=
  searchPattern "annual benefit".data dollarAmountAt t

/-- `data.roi` after the ROI block (lines 453-457): the parsed capture, or
the zero default when the pattern found no match. -/
def roiOf (t : List Char) : ℚ :=
  ((roiCapture t).map parseCapture).getD 0

/-- `data.costSavings` (lines 459-463). -/
def costSavingsOf (t : List Char) : ℚ :=
  ((savingsCapture t).map parseCapture).getD 0

/-- `data.paybackPeriod` (lines 465-469). -/
def paybackPeriodOf (t : List Char) : ℚ :=
  ((paybackCapture t).map parseCapture).getD 0

/-- `data.npv` (lines 471-475). -/
def npvOf (t : List Char) : ℚ :=
  ((npvCapture t).map parseCapture).getD 0

/-- The fallback `parseFloat(budget.replace(/,/g, '')) || 0` (line 483). -/
def budgetFallback (budget : String) : ℚ :=
  (jsParseFloat (stripCommas budget.data)).getD 0

/-- `data.totalCost`: matched amount, else the budget fallback
(lines 477-484). -/
def totalCostOf (t : List Char) (budget : String) : ℚ :=
  ((totalCostCapture t).map parseCapture).getD (budgetFallback budget)

/-- `data.totalBenefit`: matched amount, else derived from ROI and total
cost when both are positive (lines 486-493). -/
def totalBenefitOf (t : List Char) (budget : String) : ℚ :=
  ((totalBenefitCapture t).map parseCapture).getD
    (if 0 < roiOf t ∧ 0 < totalCostOf t budget then
      totalCostOf t budget * (1 + roiOf t / 100)
    else 0)

/-- `data.annualBenefit`: matched amount, else total benefit divided by the
duration in years (lines 495-503).  `duration` is truthy iff non-empty. -/
def annualBenefitOf (t : List Char) (budget duration : String) : ℚ :=
  ((annualBenefitCapture t).map parseCapture).getD
    (if 0 < totalBenefitOf t budget ∧ duration ≠ "" then
      totalBenefitOf t budget / (jsParseFloatOr0 duration.data / 12)
    else 0)

/-- One row of the synthesized monthly series (lines 515-520). -/
structure MonthEntry where
  month : Nat
  cost : ℚ
  benefit : ℚ
  cumulativeBenefit : ℚ
  deriving DecidableEq, Repr

/-- The loop of lines 512-521: one entry per month, all cost in month 1,
benefit accumulated month by month.  `fuel` counts the remaining
iterations, `i` the month, `cum` the running cumulative benefit. -/
def monthlyLoop (totalCost monthlyBenefit : ℚ) : Nat → Nat → ℚ → List MonthEntry
  | 0, _, _ => []
  | fuel + 1, i, cum =>
    let cum' := cum + monthlyBenefit
    { month := i
      cost := if i = 1 then totalCost else 0
      benefit := monthlyBenefit
      cumulativeBenefit := cum' } ::
      monthlyLoop totalCost monthlyBenefit fuel (i + 1) cum'

/-- `data.monthlyData` (lines 505-524): produced only when total cost and
annual benefit are positive and `duration` is truthy; `durationMonths` is
`parseInt(duration)` (a NaN or negative count yields the empty series, as
the JS loop then never runs). -/
def monthlyDataOf (t : List Char) (budget duration : String) : Option (List MonthEntry) :=
  if 0 < totalCostOf t budget ∧ 0 < annualBenefitOf t budget duration ∧ duration ≠ "" then
    some (monthlyLoop (totalCostOf t budget)
      (annualBenefitOf t budget duration / 12)
      ((jsParseInt duration.data).getD 0).toNat 1 0)
  else none

/-- The derived chart record (lines 441-450). -/
structure ChartData where
  roi : ℚ
  costSavings : ℚ
  paybackPeriod : ℚ
  npv : ℚ
  totalCost : ℚ
  totalBenefit : ℚ
  annualBenefit : ℚ
  monthlyData : Option (List MonthEntry)
  deriving DecidableEq, Repr

/-- `extractChartDataFromResponse` from App.tsx lines 441-530, with the
component state `budget` and `duration` passed explicitly. -/
def extractChartDataFromResponse (text budget duration : String) : ChartData :=
  { roi := roiOf text.data
    costSavings := costSavingsOf text.data
    paybackPeriod := paybackPeriodOf text.data
    npv := npvOf text.data
    totalCost := totalCostOf text.data budget
    totalBenefit := totalBenefitOf text.data budget
    annualBenefit := annualBenefitOf text.data budget duration
    monthlyData := monthlyDataOf text.data budget duration }

/-- Strict parse of an optional capture: a matched group whose text fails
the strict numeric parse surfaces as an error rather than a silent NaN. -/
def parsedCapE (cap : Option (List Char)) : Except String (Option ℚ) :=
  match cap with
  | none => .ok none
  | some c =>
    match parseCaptureStrict c with
    | some v => .ok (some v)
    | none => .error "parseFloat produced NaN on a matched group"

/-- Exception-aware variant of the extractor: a matched group whose text
`parseFloat` could not fully parse would surface as an error instead of a
silent NaN.  Used to state that the extractor never needs its `try/catch`. -/
def extractChartDataE (text budget duration : String) : Except String ChartData := do
  let t := text.data
  let roiV ← parsedCapE (roiCapture t)
  let roi := roiV.getD 0
  let savV ← parsedCapE (savingsCapture t)
  let costSavings := savV.getD 0
  let pbV ← parsedCapE (paybackCapture t)
  let paybackPeriod := pbV.getD 0
  let npvV ← parsedCapE (npvCapture t)
  let npv := npvV.getD 0
  let tcV ← parsedCapE (totalCostCapture t)
  let totalCost := tcV.getD (budgetFallback budget)
  let tbV ← parsedCapE (totalBenefitCapture t)
  let totalBenefit := tbV.getD
    (if 0 < roi ∧ 0 < totalCost then totalCost * (1 + roi / 100) else 0)
  let abV ← parsedCapE (annualBenefitCapture t)
  let annualBenefit := abV.getD
    (if 0 < totalBenefit ∧ duration ≠ "" then
      totalBenefit / (jsParseFloatOr0 duration.data / 12)
    else 0)
  let monthly :=
    if 0 < totalCost ∧ 0 < annualBenefit ∧ duration ≠ "" then
      some (monthlyLoop totalCost (annualBenefit / 12)
        ((jsParseInt duration.data).getD 0).toNat 1 0)
    else none
  return { roi := roi, costSavings := costSavings, paybackPeriod := paybackPeriod
           npv := npv, totalCost := totalCost, totalBenefit := totalBenefit
           annualBenefit := annualBenefit, monthlyData := monthly }

end App

namespace ROIChat

/-- The LaTeX command allow-list of the chat component's `prepareContent`
(part_003 lines 220-225). -/
def latexCommands : List String :=
  ["\\text", "\\frac", "\\times", "\\cdot", "\\div", "\\approx",
   "\\sqrt", "\\sum", "\\prod", "\\int", "\\lim", "\\log",
   "\\sin", "\\cos", "\\tan", "\\alpha", "\\beta", "\\gamma",
   "\\delta", "\\theta", "\\sigma", "\\omega", "\\pi"]

/-- Literal match of `p` at the head of `l`. -/
def startsWithLit : List Char → List Char → Bool
  | [], _ => true
  | _ :: _, [] => false
  | p :: ps, c :: cs => p = c && startsWithLit ps cs

/-- Literal containment, as JS `String.prototype.includes`. -/
def containsLit (p : List Char) : List Char → Bool
  | [] => startsWithLit p []
  | c :: rest => startsWithLit p (c :: rest) || containsLit p rest

/-- Literal containment of any allow-list command, as the
`latexCommands.some(cmd => line.includes(cmd))` test of part_003. -/
def containsLatexCommand (s : String) : Bool :=
  latexCommands.any (fun cmd => containsLit cmd.data s.data)

/-- `\frac\{[^}]+\}\{[^}]+\}` at the head of the list: consume the whole
fraction and return the rest. -/
def fracBodyAt : List Char → Option (List Char)
  | '\\' :: 'f' :: 'r' :: 'a' :: 'c' :: '{' :: rest =>
    let xr := rest.span (fun c => c != '}')
    if xr.1.isEmpty then none
    else
      match xr.2 with
      | '}' :: '{' :: r2 =>
        let yr := r2.span (fun c => c != '}')
        if yr.1.isEmpty then none
        else
          match yr.2 with
          | '}' :: r4 => some r4
          | _ => none
      | _ => none
  | _ => none

/-- One attempted match of part_003 line 210,
`replace(/([^$])(\frac\{[^}]+\}\{[^}]+\})([^$]|$)/g, '$1$$$$2$$$$3')`,
at the head of the list.  In a JS replacement string `$$` is an escaped
literal `$`, so `'$1$$$$2$$$$3'` denotes group 1 followed by the LITERAL
text `$$2$$3`: groups 2 (the fraction) and 3 are never substituted and the
character matched by `([^$]|$)` is consumed and dropped.  Returns the
replacement text and the rest of the input. -/
def fracMatchAt : List Char → Option (List Char × List Char)
  | [] => none
  | c :: rest =>
    if c = '$' then none
    else
      match fracBodyAt rest with
      | none => none
      | some r3 =>
        match r3 with
        | [] => some (c :: "$$2$$3".data, [])
        | d :: r4 => if d = '$' then none else some (c :: "$$2$$3".data, r4)

def fracScanAux : Nat → List Char → List Char
  | 0, l => l
  | _ + 1, [] => []
  | fuel + 1, c :: rest =>
    match fracMatchAt (c :: rest) with
    | some (out, r) => out ++ fracScanAux fuel r
    | none => c :: fracScanAux fuel rest

/-- The "handle complete formulas that might not be properly delimited"
pass of the chat component's `prepareContent` (part_003 line 210). -/
def fracDelimit (s : String) : String := ⟨fracScanAux s.data.length s.data⟩

/-- Message senders of the chat component. -/
inductive Sender where
  | user
  | assistant
  deriving DecidableEq, Repr

/-- A chat message; the opaque `id` and `timestamp` fields of the source
(`Date.now()` values) are environment effects and are not modelled. -/
structure ChatMessage where
  content : String
  sender : Sender
  deriving DecidableEq, Repr

/-- The state slots of `ChatInterface` touched by the context-version
effect. -/
structure ChatState where
  messages : List ChatMessage
  sessionId : String
  currentContextVersion : String
  isNewSession : Bool
  deriving DecidableEq, Repr

/-- The inputs the effect reads from `roiContext`; `roiResults` is an
optional prop, so a missing value (`undefined`, which fails the strict
`=== ""` test) is `none`. -/
structure RoiContextInput where
  contextVersion : String
  roiResults : Option String
  deriving DecidableEq, Repr

/-- The greeting installed on a drastic change (ChatInterface.tsx line 76). -/
def newCalculationGreeting : String :=
  "I notice you\u0027ve started a new ROI calculation. How can I help you with this new analysis?"

/-- The drastic-change heuristic (ChatInterface.tsx lines 63-67):
results were cleared with more than two messages present, or the session
has more than ten messages. -/
def isDrasticChange (ctx : RoiContextInput) (messages : List ChatMessage) : Bool :=
  (ctx.roiResults == some "" && decide (2 < messages.length)) ||
    decide (10 < messages.length)

/-- The context-version-tracking effect of ChatInterface.tsx lines 52-85,
as a pure state transition.  `freshSuffix` stands for the
`Math.random().toString(36).substring(2, 15)` suffix of a new session id.
Truthiness of a string is non-emptiness. -/
def contextVersionEffect (st : ChatState) (ctx : RoiContextInput)
    (freshSuffix : String) : ChatState :=
  if ctx.contextVersion ≠ "" ∧ ctx.contextVersion ≠ st.currentContextVersion then
    if st.currentContextVersion = "" then
      { st with currentContextVersion := ctx.contextVersion }
    else if isDrasticChange ctx st.messages then
      { st with
          sessionId := "session_" ++ freshSuffix
          isNewSession := true
          messages := [{ content := newCalculationGreeting, sender := .assistant }]
          currentContextVersion := ctx.contextVersion }
    else
      { st with currentContextVersion := ctx.contextVersion }
  else st

end ROIChat

/-- The non-whitespace characters of a string, in order.  Two strings agree
on this value exactly when they differ at most in runs of whitespace. -/
def nonWsChars (s : String) : List Char :=
  s.data.filter (fun c => !jsSpace c)

/-- Whether the first character of the list is a digit. -/
def headIsDigit : List Char → Bool
  | d :: _ => d.isDigit
  | [] => false

/-- Whether the list contains a `$` immediately followed by a digit, i.e.
a currency token that the protection pass of `App.prepareContent` rewrites. -/
def hasCurrency : List Char → Bool
  | [] => false
  | c :: rest => (c = '$' && headIsDigit rest) || hasCurrency rest

theorem bulletScan_insert (d : Char) (rest : List Char) (hd : jsSpace d = false) :
    App.bulletScan true ('-' :: d :: rest) = '-' :: ' ' :: App.bulletScan false (d :: rest) := by
  simp [App.bulletScan, hd]

theorem bulletScan_spaced (d : Char) (rest : List Char) (hd : jsSpace d = true) :
    App.bulletScan true ('-' :: d :: rest) = '-' :: App.bulletScan false (d :: rest) := by
  simp [App.bulletScan, hd]

theorem bulletScan_other (b : Bool) (c : Char) (rest : List Char)
    (h : (b && decide (c = '-')) = false) :
    App.bulletScan b (c :: rest) = c :: App.bulletScan (jsLineTerm c) rest := by
  simp only [App.bulletScan, h, Bool.false_eq_true, if_false]

theorem filter_ws_cons (c : Char) (l : List Char) (h : jsSpace c = true) :
    (c :: l).filter (fun x => !jsSpace x) = l.filter (fun x => !jsSpace x) := by
  rw [List.filter_cons]; simp [h]

theorem filter_keep_cons (c : Char) (l : List Char) (h : jsSpace c = false) :
    (c :: l).filter (fun x => !jsSpace x) = c :: l.filter (fun x => !jsSpace x) := by
  rw [List.filter_cons]; simp [h]

theorem bulletScan_filter (l : List Char) : ∀ b,
    (App.bulletScan b l).filter (fun c => !jsSpace c) =
      l.filter (fun c => !jsSpace c) := by
  induction l with
  | nil => intro b; rfl
  | cons c rest ih =>
    intro b
    by_cases hb : (b && decide (c = '-')) = true
    · simp only [Bool.and_eq_true, decide_eq_true_eq] at hb
      obtain ⟨hb1, hc⟩ := hb
      subst hb1; subst hc
      cases rest with
      | nil => rfl
      | cons d rest' =>
        by_cases hd : jsSpace d = true
        · rw [bulletScan_spaced d rest' hd,
            filter_keep_cons '-' (App.bulletScan false (d :: rest')) (by decide),
            filter_keep_cons '-' (d :: rest') (by decide), ih false]
        · rw [bulletScan_insert d rest' (by simpa using hd),
            filter_keep_cons '-' (' ' :: App.bulletScan false (d :: rest')) (by decide),
            filter_ws_cons ' ' (App.bulletScan false (d :: rest')) (by decide),
            filter_keep_cons '-' (d :: rest') (by decide), ih false]
    · rw [bulletScan_other b c rest (by simpa using hb)]
      by_cases hc : jsSpace c = true
      · rw [filter_ws_cons c (App.bulletScan (jsLineTerm c) rest) hc,
          filter_ws_cons c rest hc, ih (jsLineTerm c)]
      · rw [filter_keep_cons c (App.bulletScan (jsLineTerm c) rest) (by simpa using hc),
          filter_keep_cons c rest (by simpa using hc), ih (jsLineTerm c)]

theorem bulletScan_headIsDigit (l : List Char) (b : Bool) :
    headIsDigit (App.bulletScan b l) = headIsDigit l := by
  cases l with
  | nil => rfl
  | cons c rest =>
    by_cases hb : (b && decide (c = '-')) = true
    · simp only [Bool.and_eq_true, decide_eq_true_eq] at hb
      obtain ⟨hb1, hc⟩ := hb
      subst hb1; subst hc
      cases rest with
      | nil => rfl
      | cons d rest' =>
        by_cases hd : jsSpace d = true
        · rw [bulletScan_spaced d rest' hd]
          rfl
        · rw [bulletScan_insert d rest' (by simpa using hd)]
          rfl
    · rw [bulletScan_other b c rest (by simpa using hb)]
      rfl

theorem hasCurrency_cons_false (c : Char) (l : List Char)
    (h1 : (decide (c = '$') && headIsDigit l) = false)
    (h2 : hasCurrency l = false) : hasCurrency (c :: l) = false := by
  show ((decide (c = '$') && headIsDigit l) || hasCurrency l) = false
  rw [h1, h2]
  rfl

theorem hasCurrency_cons_elim (c : Char) (l : List Char)
    (h : hasCurrency (c :: l) = false) :
    (decide (c = '$') && headIsDigit l) = false ∧ hasCurrency l = false := by
  have h' : ((decide (c = '$') && headIsDigit l) || hasCurrency l) = false := h
  exact Bool.or_eq_false_iff.mp h'

theorem bulletScan_hasCurrency (l : List Char) : ∀ b,
    hasCurrency l = false → hasCurrency (App.bulletScan b l) = false := by
  induction l with
  | nil => intro b _; rfl
  | cons c rest ih =>
    intro b h
    obtain ⟨h1, h2⟩ := hasCurrency_cons_elim c rest h
    by_cases hb : (b && decide (c = '-')) = true
    · simp only [Bool.and_eq_true, decide_eq_true_eq] at hb
      obtain ⟨hb1, hc⟩ := hb
      subst hb1; subst hc
      cases rest with
      | nil => rfl
      | cons d rest' =>
        by_cases hd : jsSpace d = true
        · rw [bulletScan_spaced d rest' hd]
          refine hasCurrency_cons_false '-' _ ?_ (ih false h2)
          rw [show decide ('-' = '$') = false from rfl]
          exact Bool.false_and _
        · rw [bulletScan_insert d rest' (by simpa using hd)]
          refine hasCurrency_cons_false '-' _ ?_
            (hasCurrency_cons_false ' ' _ ?_ (ih false h2))
          · rw [show decide ('-' = '$') = false from rfl]
            exact Bool.false_and _
          · rw [show decide (' ' = '$') = false from rfl]
            exact Bool.false_and _
    · rw [bulletScan_other b c rest (by simpa using hb)]
      refine hasCurrency_cons_false c _ ?_ (ih (jsLineTerm c) h2)
      rw [bulletScan_headIsDigit rest (jsLineTerm c)]
      exact h1

theorem bulletScan_mem (l : List Char) : ∀ b x, x ∈ App.bulletScan b l → x ∈ l ∨ x = ' ' := by
  induction l with
  | nil => intro b x hx; cases hx
  | cons c rest ih =>
    intro b x hx
    by_cases hb : (b && decide (c = '-')) = true
    · simp only [Bool.and_eq_true, decide_eq_true_eq] at hb
      obtain ⟨hb1, hc⟩ := hb
      subst hb1; subst hc
      cases rest with
      | nil =>
        rw [show App.bulletScan true ['-'] = ['-'] from rfl] at hx
        rw [List.mem_singleton] at hx
        exact Or.inl (by simp [hx])
      | cons d rest' =>
        by_cases hd : jsSpace d = true
        · rw [bulletScan_spaced d rest' hd] at hx
          rcases List.mem_cons.mp hx with h | h
          · exact Or.inl (by simp [h])
          · rcases ih false x h with h' | h'
            · exact Or.inl (List.mem_cons_of_mem _ h')
            · exact Or.inr h'
        · rw [bulletScan_insert d rest' (by simpa using hd)] at hx
          rcases List.mem_cons.mp hx with h | h
          · exact Or.inl (by simp [h])
          · rcases List.mem_cons.mp h with h'' | h''
            · exact Or.inr h''
            · rcases ih false x h'' with h' | h'
              · exact Or.inl (List.mem_cons_of_mem _ h')
              · exact Or.inr h'
    · rw [bulletScan_other b c rest (by simpa using hb)] at hx
      rcases List.mem_cons.mp hx with h | h
      · exact Or.inl (by simp [h])
      · rcases ih (jsLineTerm c) x h with h' | h'
        · exact Or.inl (List.mem_cons_of_mem _ h')
        · exact Or.inr h'

theorem bulletScan_no_newline (l : List Char) (b : Bool) (h : '\n' ∉ l) :
    '\n' ∉ App.bulletScan b l := by
  intro hmem
  rcases bulletScan_mem l b '\n' hmem with h' | h'
  · exact h h'
  · cases h'

theorem bulletScan_idem (l : List Char) : ∀ b,
    App.bulletScan b (App.bulletScan b l) = App.bulletScan b l := by
  induction l with
  | nil => intro b; rfl
  | cons c rest ih =>
    intro b
    by_cases hb : (b && decide (c = '-')) = true
    · simp only [Bool.and_eq_true, decide_eq_true_eq] at hb
      obtain ⟨hb1, hc⟩ := hb
      subst hb1; subst hc
      cases rest with
      | nil => rfl
      | cons d rest' =>
        by_cases hd : jsSpace d = true
        · have hshape : App.bulletScan false (d :: rest') =
              d :: App.bulletScan (jsLineTerm d) rest' :=
            bulletScan_other false d rest' (by simp)
          rw [bulletScan_spaced d rest' hd, hshape, bulletScan_spaced d _ hd,
            ← hshape, ih false]
        · rw [bulletScan_insert d rest' (by simpa using hd),
            bulletScan_spaced ' ' _ (by decide),
            bulletScan_other false ' ' _ (by simp),
            show jsLineTerm ' ' = false from by decide, ih false]
    · rw [bulletScan_other b c rest (by simpa using hb),
        bulletScan_other b c _ (by simpa using hb), ih (jsLineTerm c)]

theorem bulletScan_flat (l : List Char)
    (h : l.all (fun c => !jsLineTerm c) = true) :
    App.bulletScan false l = l := by
  induction l with
  | nil => rfl
  | cons c rest ih =>
    simp only [List.all_cons, Bool.and_eq_true, Bool.not_eq_true'] at h
    rw [bulletScan_other false c rest (by simp), h.1, ih h.2]

theorem currencyTokenAt_no_match (l : List Char) (h : hasCurrency l = false) :
    App.currencyTokenAt l = none := by
  unfold App.currencyTokenAt
  split
  · rename_i c rest
    have h1 := (hasCurrency_cons_elim '$' (c :: rest) h).1
    rw [show decide ('$' = '$') = true from rfl, Bool.true_and] at h1
    have hd : c.isDigit = false := h1
    rw [if_neg (by simp [hd])]
  · rfl

theorem hasCurrency_tail (c : Char) (rest : List Char)
    (h : hasCurrency (c :: rest) = false) : hasCurrency rest = false :=
  (hasCurrency_cons_elim c rest h).2

theorem currencyScanAux_id (fuel : Nat) : ∀ l, hasCurrency l = false →
    App.currencyScanAux fuel l = l := by
  induction fuel with
  | zero => intro l _; rfl
  | succ fuel ih =>
    intro l h
    cases l with
    | nil => rfl
    | cons c rest =>
      simp only [App.currencyScanAux]
      rw [currencyTokenAt_no_match _ h]
      rw [ih rest (hasCurrency_tail c rest h)]

theorem newlineScan_cons (a : Char) (rest : List Char)
    (h : ∀ (b : Char) (r : List Char), rest = '\n' :: b :: r → False) :
    App.newlineScan (a :: rest) = a :: App.newlineScan rest := by
  rw [App.newlineScan.eq_def]
  split
  · rename_i x y z heq
    injection heq with e1 e2
    exact (h y z e2).elim
  · rename_i a2 rest2 hg heq
    injection heq with e1 e2
    rw [← e1, ← e2]
  · rename_i heq
    exact absurd heq (List.cons_ne_nil a rest)

theorem newlineScan_match (a b : Char) (rest : List Char)
    (h : ¬(a = '\n' ∨ b = '\n')) :
    App.newlineScan (a :: '\n' :: b :: rest) =
      a :: '\n' :: '\n' :: b :: App.newlineScan rest := by
  simp [App.newlineScan, h]

theorem newlineScan_skip (a b : Char) (rest : List Char)
    (h : a = '\n' ∨ b = '\n') :
    App.newlineScan (a :: '\n' :: b :: rest) =
      a :: App.newlineScan ('\n' :: b :: rest) := by
  simp [App.newlineScan, h]

theorem newlineScan_filter (l : List Char) :
    (App.newlineScan l).filter (fun c => !jsSpace c) =
      l.filter (fun c => !jsSpace c) := by
  induction l using App.newlineScan.induct with
  | case1 a b rest h ih =>
    rw [newlineScan_skip a b rest h]
    by_cases ha : jsSpace a = true
    · rw [filter_ws_cons a (App.newlineScan ('\n' :: b :: rest)) ha,
        filter_ws_cons a ('\n' :: b :: rest) ha, ih]
    · rw [filter_keep_cons a (App.newlineScan ('\n' :: b :: rest)) (by simpa using ha),
        filter_keep_cons a ('\n' :: b :: rest) (by simpa using ha), ih]
  | case2 a b rest h ih =>
    rw [newlineScan_match a b rest h]
    have hnl : jsSpace '\n' = true := by decide
    by_cases ha : jsSpace a = true
    · rw [filter_ws_cons a _ ha, filter_ws_cons '\n' _ hnl, filter_ws_cons '\n' _ hnl,
        filter_ws_cons a ('\n' :: b :: rest) ha, filter_ws_cons '\n' (b :: rest) hnl]
      by_cases hbb : jsSpace b = true
      · rw [filter_ws_cons b (App.newlineScan rest) hbb, filter_ws_cons b rest hbb, ih]
      · rw [filter_keep_cons b (App.newlineScan rest) (by simpa using hbb),
          filter_keep_cons b rest (by simpa using hbb), ih]
    · rw [filter_keep_cons a _ (by simpa using ha), filter_ws_cons '\n' _ hnl,
        filter_ws_cons '\n' _ hnl,
        filter_keep_cons a ('\n' :: b :: rest) (by simpa using ha),
        filter_ws_cons '\n' (b :: rest) hnl]
      by_cases hbb : jsSpace b = true
      · rw [filter_ws_cons b (App.newlineScan rest) hbb, filter_ws_cons b rest hbb, ih]
      · rw [filter_keep_cons b (App.newlineScan rest) (by simpa using hbb),
          filter_keep_cons b rest (by simpa using hbb), ih]
  | case3 a rest h ih =>
    rw [newlineScan_cons a rest h]
    by_cases ha : jsSpace a = true
    · rw [filter_ws_cons a (App.newlineScan rest) ha, filter_ws_cons a rest ha, ih]
    · rw [filter_keep_cons a (App.newlineScan rest) (by simpa using ha),
        filter_keep_cons a rest (by simpa using ha), ih]
  | case4 => rfl

theorem newlineScan_id (l : List Char) (h : '\n' ∉ l) : App.newlineScan l = l := by
  induction l using App.newlineScan.induct with
  | case1 a b rest hc ih => exact absurd (by simp) h
  | case2 a b rest hc ih => exact absurd (by simp) h
  | case3 a rest hc ih =>
    rw [newlineScan_cons a rest hc, ih (fun hm => h (List.mem_cons_of_mem a hm))]
  | case4 => rfl

theorem prepareContent_shape (t : String) (ht : t ≠ "")
    (hc : hasCurrency t.data = false) (hn : '\n' ∉ t.data) :
    App.prepareContent t = ⟨App.bulletScan true t.data⟩ := by
  unfold App.prepareContent App.lineBreakFix App.currencyEscape App.bulletFix
  rw [if_neg ht]
  refine congrArg String.mk ?_
  show App.newlineScan (App.currencyScanAux (App.bulletScan true t.data).length
    (App.bulletScan true t.data)) = App.bulletScan true t.data
  rw [currencyScanAux_id _ _ (bulletScan_hasCurrency t.data true hc)]
  rw [newlineScan_id _ (bulletScan_no_newline t.data true hn)]

/-- C1 counterexample: the text `Cost: $5 now` is already correctly
delimited (it contains no math at all), yet running `prepareContent` twice
differs from running it once — the currency-protection pass re-matches the
`$5` inside the escaped `\$5` and stacks a second backslash. -/
theorem prepareContent_not_idempotent :
    App.prepareContent (App.prepareContent "Cost: $5 now") ≠
      App.prepareContent "Cost: $5 now" := by decide

/-- C1 (amended): `prepareContent` is idempotent on already-normalized text
that contains no `$`-digit currency token and no line break; with a currency
token the second pass adds another backslash, and a single newline that the
first pass's scanner skipped over can be doubled by the second pass. -/
theorem prepareContent_idempotent_no_currency (s : String)
    (hcur : hasCurrency s.data = false) (hnl : '\n' ∉ s.data) :
    App.prepareContent (App.prepareContent s) = App.prepareContent s := by
  by_cases hs : s = ""
  · subst hs; rfl
  · rw [prepareContent_shape s hs hcur hnl]
    by_cases hB : (⟨App.bulletScan true s.data⟩ : String) = ""
    · rw [hB]; rfl
    · rw [prepareContent_shape _ hB
        (bulletScan_hasCurrency s.data true hcur)
        (bulletScan_no_newline s.data true hnl)]
      exact congrArg String.mk (bulletScan_idem s.data true)

/-- Witness for the amended C1 theorem at a concrete input. -/
theorem prepareContent_idempotent_witness :
    hasCurrency ("hello world" : String).data = false ∧
      '\n' ∉ ("hello world" : String).data ∧
      App.prepareContent (App.prepareContent "hello world") =
        App.prepareContent "hello world" :=
  ⟨by decide, by decide,
    prepareContent_idempotent_no_currency "hello world" (by decide) (by decide)⟩

/-- C2: the `\frac`-wrapping pass of the chat normalizer destroys the
formula instead of wrapping it in display delimiters.  On the spec's own
test line `ROI = \frac{100}{50} \times 100` the JS replacement string
`'$1$$$$2$$$$3'` (in which `$$` is an escaped literal dollar) inserts the
literal text `$$2$$3` in place of the fraction, so no display-math block
with surrounding blank lines is ever produced. -/
theorem fracDelimit_destroys_formula :
    ROIChat.fracDelimit "ROI = \\frac{100}{50} \\times 100" =
      "ROI = $$2$$3\\times 100" := by decide

/-- C6 counterexample: `formatCurrency` requires an actual following
non-digit character (`(?=\D)`), so the one-token inputs are NOT rewritten. -/
theorem formatCurrency_one_token_unchanged :
    App.formatCurrency "$1234" = "$1234" ∧
      App.formatCurrency "$1234" ≠ "$1,234" ∧
      App.formatCurrency "$1234567" = "$1234567" ∧
      App.formatCurrency "$1234567" ≠ "$1,234,567" := by decide

/-- C6 (amended): `formatCurrency` rewrites a `$`-digit run exactly when a
non-digit character follows it: `$1234 ` becomes `$1,234 ` and `$1234567 `
becomes `$1,234,567 `, while the bare one-token inputs (digit run at end of
input, where the `(?=\D)` lookahead fails) are left unchanged. -/
theorem formatCurrency_thousands :
    App.formatCurrency "$1234 " = "$1,234 " ∧
      App.formatCurrency "$1234567 " = "$1,234,567 " ∧
      App.formatCurrency "$1234" = "$1234" ∧
      App.formatCurrency "$1234567" = "$1234567" := by decide

/-- C7 counterexample: `$5 x` contains no allow-list LaTeX token and no
equation-shaped line, yet normalization inserts a backslash (a non-whitespace
character) to protect the currency token, so it is not the identity up to
whitespace. -/
theorem prepareContent_rewrites_currency_text :
    ROIChat.containsLatexCommand "$5 x" = false ∧
      nonWsChars (App.prepareContent "$5 x") ≠ nonWsChars "$5 x" := by decide

/-- C7 (amended): on input with no allow-list LaTeX token and no `$`-digit
currency token, normalization preserves every non-whitespace character in
order — it is the identity up to whitespace changes. -/
theorem prepareContent_identity_no_math (s : String)
    (hlatex : ROIChat.containsLatexCommand s = false)
    (hcur : hasCurrency s.data = false) :
    nonWsChars (App.prepareContent s) = nonWsChars s := by
  by_cases hs : s = ""
  · subst hs; rfl
  · have key : (App.newlineScan (App.currencyScanAux
        (App.bulletScan true s.data).length (App.bulletScan true s.data))).filter
          (fun c => !jsSpace c) = s.data.filter (fun c => !jsSpace c) := by
      rw [currencyScanAux_id _ _ (bulletScan_hasCurrency s.data true hcur)]
      rw [newlineScan_filter, bulletScan_filter]
    unfold App.prepareContent
    rw [if_neg hs]
    exact key

/-- Witness for the amended C7 theorem at a concrete input. -/
theorem prepareContent_identity_witness :
    ROIChat.containsLatexCommand "plain prose" = false ∧
      hasCurrency ("plain prose" : String).data = false ∧
      nonWsChars (App.prepareContent "plain prose") = nonWsChars "plain prose" :=
  ⟨by decide, by decide,
    prepareContent_identity_no_math "plain prose" (by decide) (by decide)⟩

/-- C8: bullet normalization inserts a space after a leading dash exactly
when it is missing: `-item` becomes `- item`, and any single line already of
the form `- item` (dash followed by a space) is left unchanged. -/
theorem bulletFix_dash_space :
    App.bulletFix "-item" = "- item" ∧
      ∀ r : String, r.data.all (fun c => !jsLineTerm c) = true →
        App.bulletFix ("- " ++ r) = "- " ++ r := by
  constructor
  · decide
  · intro r h
    have hdata : ("- " ++ r).data = '-' :: ' ' :: r.data := by
      rw [String.data_append]
      rfl
    refine String.ext ?_
    show App.bulletScan true (("- " ++ r).data) = ("- " ++ r).data
    rw [hdata]
    rw [bulletScan_spaced ' ' r.data (by decide)]
    rw [bulletScan_other false ' ' r.data (by simp)]
    rw [show jsLineTerm ' ' = false from rfl]
    rw [bulletScan_flat r.data h]

/-- Witness for the C8 theorem at a concrete line. -/
theorem bulletFix_dash_space_witness :
    ("item" : String).data.all (fun c => !jsLineTerm c) = true ∧
      App.bulletFix ("- " ++ "item") = "- " ++ "item" :=
  ⟨by decide, bulletFix_dash_space.2 "item" (by decide)⟩

/-- C9: when the total-benefit pattern finds no match but the extracted ROI
is positive and the total cost (matched, or else taken from the budget) is
positive, the extractor does not leave `totalBenefit` at zero: it returns
`totalCost * (1 + roi / 100)`. -/
theorem totalBenefit_derived (text budget duration : String)
    (h1 : App.totalBenefitCapture text.data = none)
    (h2 : 0 < App.roiOf text.data)
    (h3 : 0 < App.totalCostOf text.data budget) :
    (App.extractChartDataFromResponse text budget duration).totalBenefit =
      App.totalCostOf text.data budget * (1 + App.roiOf text.data / 100) := by
  show App.totalBenefitOf text.data budget = _
  unfold App.totalBenefitOf
  rw [h1]
  exact if_pos ⟨h2, h3⟩

/-- Witness for the C9 theorem at a concrete input. -/
theorem totalBenefit_derived_witness :
    App.totalBenefitCapture ("ROI of 25%" : String).data = none ∧
      0 < App.roiOf ("ROI of 25%" : String).data ∧
      0 < App.totalCostOf ("ROI of 25%" : String).data "1000" ∧
      (App.extractChartDataFromResponse "ROI of 25%" "1000" "6").totalBenefit =
        App.totalCostOf ("ROI of 25%" : String).data "1000" *
          (1 + App.roiOf ("ROI of 25%" : String).data / 100) :=
  ⟨by decide, by decide, by decide,
    totalBenefit_derived "ROI of 25%" "1000" "6" (by decide) (by decide) (by decide)⟩

/-- C5 counterexample: on the text `ROI of 25%` (which matches no other
field pattern), with the component's budget string `1000`, the extractor
falls back to the budget for the unmatched `totalCost`, so that field does
NOT stay at its zero default. -/
theorem roi_only_budget_leaks :
    (App.extractChartDataFromResponse "ROI of 25%" "1000" "").roi = 25 ∧
      (App.extractChartDataFromResponse "ROI of 25%" "1000" "").totalCost = 1000 ∧
      (App.extractChartDataFromResponse "ROI of 25%" "1000" "").totalCost ≠ 0 := by
  decide

/-- C5 (amended): on the text `ROI of 25%`, which matches no other field
pattern, and with a budget whose parse-or-zero value is 0 (for example an
empty budget), the extractor returns roi = 25 and every other numeric field
at its zero default, with no monthly series, for any duration. -/
theorem chartData_roi_only (budget duration : String)
    (hb : App.budgetFallback budget = 0) :
    App.extractChartDataFromResponse "ROI of 25%" budget duration =
      { roi := 25, costSavings := 0, paybackPeriod := 0, npv := 0,
        totalCost := 0, totalBenefit := 0, annualBenefit := 0,
        monthlyData := none } := by
  have htc : App.totalCostOf ("ROI of 25%" : String).data budget = 0 := by
    unfold App.totalCostOf
    rw [show App.totalCostCapture ("ROI of 25%" : String).data = none from by decide]
    exact hb
  have htb : App.totalBenefitOf ("ROI of 25%" : String).data budget = 0 := by
    unfold App.totalBenefitOf
    rw [show App.totalBenefitCapture ("ROI of 25%" : String).data = none from by decide]
    rw [htc]
    rw [if_neg (fun hh => absurd hh.2 (lt_irrefl 0))]
    rfl
  have hab : App.annualBenefitOf ("ROI of 25%" : String).data budget duration = 0 := by
    unfold App.annualBenefitOf
    rw [show App.annualBenefitCapture ("ROI of 25%" : String).data = none from by decide]
    rw [htb]
    rw [if_neg (fun hh => absurd hh.1 (lt_irrefl 0))]
    rfl
  have hmd : App.monthlyDataOf ("ROI of 25%" : String).data budget duration = none := by
    unfold App.monthlyDataOf
    rw [htc]
    rw [if_neg (fun hh => absurd hh.1 (lt_irrefl 0))]
  unfold App.extractChartDataFromResponse
  rw [htc, htb, hab, hmd]
  decide

/-- Witness for the amended C5 theorem at a concrete input. -/
theorem chartData_roi_only_witness :
    App.budgetFallback "" = 0 ∧
      App.extractChartDataFromResponse "ROI of 25%" "" "" =
        { roi := 25, costSavings := 0, paybackPeriod := 0, npv := 0,
          totalCost := 0, totalBenefit := 0, annualBenefit := 0,
          monthlyData := none } :=
  ⟨by decide, chartData_roi_only "" "" (by decide)⟩

/-- C4: on the text `total cost $10,000 and total benefit $15,000` with an
externally supplied duration of 12 months (and any budget), the extractor
returns a 12-entry monthly series whose months run 1..12, whose first entry
carries the whole cost of 10000 with every later month's cost 0, and whose
final entry's cumulative benefit is exactly 15000. -/
theorem chartData_monthly_series (budget : String) :
    ∃ l, (App.extractChartDataFromResponse
        "total cost $10,000 and total benefit $15,000" budget "12").monthlyData =
          some l ∧
      l.length = 12 ∧
      l.map App.MonthEntry.month = [1, 2, 3, 4, 5, 6, 7, 8, 9, 10, 11, 12] ∧
      l.map App.MonthEntry.cost = [10000, 0, 0, 0, 0, 0, 0, 0, 0, 0, 0, 0] ∧
      l.getLast?.map App.MonthEntry.cumulativeBenefit = some 15000 := by
  have htc : App.totalCostOf
      ("total cost $10,000 and total benefit $15,000" : String).data budget = 10000 := by
    unfold App.totalCostOf
    rw [show App.totalCostCapture
      ("total cost $10,000 and total benefit $15,000" : String).data =
        some ("10,000" : String).data from by decide]
    show App.parseCapture ("10,000" : String).data = 10000
    decide
  have htb : App.totalBenefitOf
      ("total cost $10,000 and total benefit $15,000" : String).data budget = 15000 := by
    unfold App.totalBenefitOf
    rw [show App.totalBenefitCapture
      ("total cost $10,000 and total benefit $15,000" : String).data =
        some ("15,000" : String).data from by decide]
    show App.parseCapture ("15,000" : String).data = 15000
    decide
  have hab : App.annualBenefitOf
      ("total cost $10,000 and total benefit $15,000" : String).data budget "12" = 15000 := by
    unfold App.annualBenefitOf
    rw [show App.annualBenefitCapture
      ("total cost $10,000 and total benefit $15,000" : String).data = none from by decide]
    show (if 0 < App.totalBenefitOf
          ("total cost $10,000 and total benefit $15,000" : String).data budget ∧
          ("12" : String) ≠ "" then
        App.totalBenefitOf
            ("total cost $10,000 and total benefit $15,000" : String).data budget /
          (jsParseFloatOr0 ("12" : String).data / 12)
      else 0) = 15000
    rw [htb]
    rw [if_pos ⟨by norm_num, by decide⟩]
    decide
  have hmd : App.monthlyDataOf
      ("total cost $10,000 and total benefit $15,000" : String).data budget "12" =
        some (App.monthlyLoop 10000 1250 12 1 0) := by
    unfold App.monthlyDataOf
    rw [htc, hab]
    rw [if_pos ⟨by norm_num, by norm_num, by decide⟩]
    decide
  refine ⟨App.monthlyLoop 10000 1250 12 1 0, hmd, by decide, by decide, by decide, by decide⟩

/-- C10: on a context-version change (new non-empty version different from
the previously set one), the chat component resets exactly when the
drastic-change heuristic fires: it then installs the single assistant
greeting and a freshly generated session id; otherwise the message list and
session id are untouched (only the recorded version advances). -/
theorem contextVersionEffect_reset_iff (st : ROIChat.ChatState)
    (ctx : ROIChat.RoiContextInput) (fresh : String)
    (h1 : ctx.contextVersion ≠ "")
    (h2 : ctx.contextVersion ≠ st.currentContextVersion)
    (h3 : st.currentContextVersion ≠ "") :
    (ROIChat.isDrasticChange ctx st.messages = true →
      (ROIChat.contextVersionEffect st ctx fresh).messages =
          [{ content := ROIChat.newCalculationGreeting,
             sender := ROIChat.Sender.assistant }] ∧
        (ROIChat.contextVersionEffect st ctx fresh).sessionId = "session_" ++ fresh ∧
        (ROIChat.contextVersionEffect st ctx fresh).currentContextVersion =
          ctx.contextVersion) ∧
    (ROIChat.isDrasticChange ctx st.messages = false →
      (ROIChat.contextVersionEffect st ctx fresh).messages = st.messages ∧
        (ROIChat.contextVersionEffect st ctx fresh).sessionId = st.sessionId) := by
  unfold ROIChat.contextVersionEffect
  rw [if_pos ⟨h1, h2⟩, if_neg h3]
  constructor
  · intro hd
    rw [if_pos hd]
    exact ⟨rfl, rfl, rfl⟩
  · intro hd
    rw [if_neg (by simp [hd])]
    exact ⟨rfl, rfl⟩

theorem digit_ne_comma (c : Char) (h : c.isDigit = true) : c ≠ ',' := by
  intro he; subst he; exact absurd h (by decide)

theorem takeWhile_append_all (p : Char → Bool) (xs ys : List Char)
    (h : ∀ c ∈ xs, p c = true) :
    (xs ++ ys).takeWhile p = xs ++ ys.takeWhile p := by
  induction xs with
  | nil => rfl
  | cons a xs ih =>
    rw [List.cons_append, List.takeWhile_cons, h a (List.mem_cons_self a xs)]
    rw [if_pos rfl, ih (fun c hc => h c (List.mem_cons_of_mem a hc))]
    rfl

theorem dropWhile_append_all (p : Char → Bool) (xs ys : List Char)
    (h : ∀ c ∈ xs, p c = true) :
    (xs ++ ys).dropWhile p = ys.dropWhile p := by
  induction xs with
  | nil => rfl
  | cons a xs ih =>
    rw [List.cons_append, List.dropWhile_cons, h a (List.mem_cons_self a xs)]
    rw [if_pos rfl, ih (fun c hc => h c (List.mem_cons_of_mem a hc))]

theorem takeWhile_all (p : Char → Bool) (l : List Char) (h : ∀ c ∈ l, p c = true) :
    l.takeWhile p = l := by
  simpa using takeWhile_append_all p l [] h

theorem dropWhile_all (p : Char → Bool) (l : List Char) (h : ∀ c ∈ l, p c = true) :
    l.dropWhile p = [] := by
  simpa using dropWhile_append_all p l [] h

theorem takeWhile_head_false (p : Char → Bool) (ys : List Char)
    (h : ys = [] ∨ ∃ c t, ys = c :: t ∧ p c = false) : ys.takeWhile p = [] := by
  rcases h with h | ⟨c, t, h, hc⟩
  · subst h; rfl
  · subst h; rw [List.takeWhile_cons, hc]; rfl

theorem dropWhile_head_false (p : Char → Bool) (ys : List Char)
    (h : ys = [] ∨ ∃ c t, ys = c :: t ∧ p c = false) : ys.dropWhile p = ys := by
  rcases h with h | ⟨c, t, h, hc⟩
  · subst h; rfl
  · subst h; rw [List.dropWhile_cons, hc]; rfl

theorem stripCommas_append (a b : List Char) :
    App.stripCommas (a ++ b) = App.stripCommas a ++ App.stripCommas b :=
  List.filter_append a b

theorem stripCommas_all_digits (l : List Char) (h : ∀ c ∈ l, c.isDigit = true) :
    App.stripCommas l = l :=
  List.filter_eq_self.mpr (fun a ha => decide_eq_true (digit_ne_comma a (h a ha)))

theorem stripCommas_members (l : List Char)
    (h : ∀ c ∈ l, c = ',' ∨ c.isDigit = true) :
    ∀ c ∈ App.stripCommas l, c.isDigit = true := by
  intro c hc
  have hm := List.mem_filter.mp hc
  rcases h c hm.1 with h' | h'
  · exact absurd (decide_eq_true_eq.mp hm.2) (by simp [h'])
  · exact h'

theorem commaGroups_shape (a b c : Char) (rest : List Char)
    (hdig : (a.isDigit && b.isDigit && c.isDigit) = true) :
    App.commaGroups (',' :: a :: b :: c :: rest) =
      (',' :: a :: b :: c :: (App.commaGroups rest).1, (App.commaGroups rest).2) := by
  simp [App.commaGroups, hdig]

theorem commaGroups_members : ∀ m : List Char,
    ∀ c ∈ (App.commaGroups m).1, c = ',' ∨ c.isDigit = true := by
  intro m
  induction m using App.commaGroups.induct with
  | case1 a b c rest hdig ih =>
    intro x hx
    rw [commaGroups_shape a b c rest hdig] at hx
    obtain ⟨⟨ha, hb⟩, hc⟩ : (a.isDigit = true ∧ b.isDigit = true) ∧ c.isDigit = true := by
      simpa [Bool.and_eq_true] using hdig
    rcases List.mem_cons.mp hx with h' | hx
    · exact Or.inl h'
    rcases List.mem_cons.mp hx with h' | hx
    · subst h'; exact Or.inr ha
    rcases List.mem_cons.mp hx with h' | hx
    · subst h'; exact Or.inr hb
    rcases List.mem_cons.mp hx with h' | hx
    · subst h'; exact Or.inr hc
    exact ih x hx
  | case2 a b c rest hdig =>
    intro x hx
    rw [show App.commaGroups (',' :: a :: b :: c :: rest) =
        ([], ',' :: a :: b :: c :: rest) from by simp [App.commaGroups, hdig]] at hx
    cases hx
  | case3 l hno =>
    intro x hx
    rw [show App.commaGroups l = ([], l) from by
      rw [App.commaGroups.eq_def]
      split
      · rename_i a b c rest
        exact (hno a b c rest rfl).elim
      · rfl] at hx
    cases hx

theorem fracPart_shape (m : List Char) :
    (App.fracPart m).1 = [] ∨ ∃ d ds2, (App.fracPart m).1 = '.' :: d :: ds2 ∧
      d.isDigit = true ∧ ∀ x ∈ ds2, x.isDigit = true := by
  rw [App.fracPart.eq_def]
  split
  · rename_i c rest
    by_cases hd : c.isDigit = true
    · rw [if_pos hd]
      exact Or.inr ⟨c, rest.takeWhile Char.isDigit, rfl, hd,
        fun x hx => List.mem_takeWhile_imp hx⟩
    · rw [if_neg hd]
      exact Or.inl rfl
  · exact Or.inl rfl

/-- Core shape fact: a capture of the form `digits ++ comma-groups ++
fraction` is parsed identically by the strict and the total parser. -/
theorem parseCaptureStrict_of_shape (ds gs fs : List Char)
    (hne : ds ≠ [])
    (hds : ∀ c ∈ ds, c.isDigit = true)
    (hgs : ∀ c ∈ gs, c = ',' ∨ c.isDigit = true)
    (hfs : fs = [] ∨ ∃ d ds2, fs = '.' :: d :: ds2 ∧ d.isDigit = true ∧
      ∀ x ∈ ds2, x.isDigit = true) :
    App.parseCaptureStrict (ds ++ gs ++ fs) =
      some (App.parseCapture (ds ++ gs ++ fs)) := by
  have hfsm : ∀ c ∈ fs, c ≠ ',' := by
    rcases hfs with hfs | ⟨d, ds2, hfs, hd, hds2⟩
    · subst hfs; intro c hc; cases hc
    · subst hfs
      intro c hc
      rcases List.mem_cons.mp hc with h' | h'
      · subst h'; decide
      · rcases List.mem_cons.mp h' with h'' | h''
        · rw [h'']; exact digit_ne_comma d hd
        · exact digit_ne_comma c (hds2 c h'')
  have h1 : App.stripCommas ds = ds := stripCommas_all_digits ds hds
  have h3 : App.stripCommas fs = fs :=
    List.filter_eq_self.mpr (fun a ha => decide_eq_true (hfsm a ha))
  have hstr : App.stripCommas (ds ++ gs ++ fs) = ds ++ App.stripCommas gs ++ fs := by
    rw [stripCommas_append (ds ++ gs) fs, stripCommas_append ds gs, h1, h3]
  have hmid : ∀ c ∈ ds ++ App.stripCommas gs, c.isDigit = true := by
    intro c hc
    rcases List.mem_append.mp hc with h' | h'
    · exact hds c h'
    · exact stripCommas_members gs hgs c h'
  have hfshape : fs = [] ∨ ∃ c t, fs = c :: t ∧ c.isDigit = false := by
    rcases hfs with hfs | ⟨d, ds2, hfs, _, _⟩
    · exact Or.inl hfs
    · exact Or.inr ⟨'.', d :: ds2, hfs, by decide⟩
  have htw : (App.stripCommas (ds ++ gs ++ fs)).takeWhile Char.isDigit =
      ds ++ App.stripCommas gs := by
    rw [hstr, List.append_assoc, takeWhile_append_all _ _ _ hds,
      takeWhile_append_all _ _ _ (stripCommas_members gs hgs),
      takeWhile_head_false _ _ hfshape, List.append_nil]
  have hdw : (App.stripCommas (ds ++ gs ++ fs)).dropWhile Char.isDigit = fs := by
    rw [hstr, List.append_assoc, dropWhile_append_all _ _ _ hds,
      dropWhile_append_all _ _ _ (stripCommas_members gs hgs),
      dropWhile_head_false _ _ hfshape]
  have hnemid : ((ds ++ App.stripCommas gs).isEmpty = true) → False := by
    intro hh
    rcases List.append_eq_nil.mp (List.isEmpty_iff.mp hh) with ⟨h', _⟩
    exact hne h'
  simp only [App.parseCaptureStrict, App.parseCapture]
  rw [htw, hdw, if_neg hnemid]
  rcases hfs with hfs | ⟨d, ds2, hfs, hd, hds2⟩
  · subst hfs; rfl
  · subst hfs
    have hall : ∀ x ∈ d :: ds2, x.isDigit = true := by
      intro x hx
      rcases List.mem_cons.mp hx with h' | h'
      · subst h'; exact hd
      · exact hds2 x h'
    show (if ((d :: ds2).takeWhile Char.isDigit).isEmpty = true then none
      else if ((d :: ds2).dropWhile Char.isDigit).isEmpty = true then
        some (decimalValue (ds ++ App.stripCommas gs) ((d :: ds2).takeWhile Char.isDigit))
      else none) =
      some (decimalValue (ds ++ App.stripCommas gs) ((d :: ds2).takeWhile Char.isDigit))
    rw [takeWhile_all _ _ hall, dropWhile_all _ _ hall]
    rfl

theorem amountAt_strict (l cap : List Char) (h : App.amountAt l = some cap) :
    App.parseCaptureStrict cap = some (App.parseCapture cap) := by
  simp only [App.amountAt] at h
  by_cases he : (l.takeWhile Char.isDigit).isEmpty = true
  · rw [if_pos he] at h; cases h
  · rw [if_neg he] at h
    injection h with hcap
    subst hcap
    refine parseCaptureStrict_of_shape _ _ _ ?_ ?_ ?_ ?_
    · intro hnil
      exact he (by rw [hnil]; rfl)
    · exact fun c hc => List.mem_takeWhile_imp hc
    · exact commaGroups_members _
    · exact fracPart_shape _

theorem dollarAmountAt_strict (l cap : List Char)
    (h : App.dollarAmountAt l = some cap) :
    App.parseCaptureStrict cap = some (App.parseCapture cap) := by
  rw [App.dollarAmountAt.eq_def] at h
  split at h
  · exact amountAt_strict _ _ h
  · cases h

theorem numPercentAt_strict (l cap : List Char)
    (h : App.numPercentAt l = some cap) :
    App.parseCaptureStrict cap = some (App.parseCapture cap) := by
  simp only [App.numPercentAt] at h
  by_cases he : (l.takeWhile Char.isDigit).isEmpty = true
  · rw [if_pos he] at h; cases h
  · rw [if_neg he] at h
    split at h
    · injection h with hcap
      subst hcap
      have hmain := parseCaptureStrict_of_shape (l.takeWhile Char.isDigit) []
        (App.fracPart (l.dropWhile Char.isDigit)).1
        (fun hnil => he (by rw [hnil]; rfl))
        (fun c hc => List.mem_takeWhile_imp hc)
        (fun c hc => absurd hc (List.not_mem_nil c))
        (fracPart_shape _)
      simpa using hmain
    · cases h

theorem numUnitAt_strict (l cap : List Char)
    (h : App.numUnitAt l = some cap) :
    App.parseCaptureStrict cap = some (App.parseCapture cap) := by
  simp only [App.numUnitAt] at h
  by_cases he : (l.takeWhile Char.isDigit).isEmpty = true
  · rw [if_pos he] at h; cases h
  · rw [if_neg he] at h
    split at h
    · injection h with hcap
      subst hcap
      have hmain := parseCaptureStrict_of_shape (l.takeWhile Char.isDigit) []
        (App.fracPart (l.dropWhile Char.isDigit)).1
        (fun hnil => he (by rw [hnil]; rfl))
        (fun c hc => List.mem_takeWhile_imp hc)
        (fun c hc => absurd hc (List.not_mem_nil c))
        (fracPart_shape _)
      simpa using hmain
    · cases h

theorem gapSearch_origin (after : List Char → Option (List Char)) :
    ∀ (l : List Char) (cap : List Char), App.gapSearch after l = some cap →
      ∃ l', after l' = some cap := by
  intro l
  induction l with
  | nil => intro cap h; cases h
  | cons c rest ih =>
    intro cap h
    simp only [App.gapSearch] at h
    cases haft : after (c :: rest) with
    | some cap2 =>
      rw [haft] at h
      injection h with hcap
      exact ⟨c :: rest, by rw [haft, hcap]⟩
    | none =>
      rw [haft] at h
      by_cases hlt : jsLineTerm c = true
      · rw [if_pos hlt] at h; cases h
      · rw [if_neg hlt] at h; exact ih cap h

theorem searchPattern_origin (pat : List Char) (after : List Char → Option (List Char)) :
    ∀ (l : List Char) (cap : List Char), App.searchPattern pat after l = some cap →
      ∃ l', after l' = some cap := by
  intro l
  induction l with
  | nil =>
    intro cap h
    simp only [App.searchPattern] at h
    cases hci : App.ciLiteral pat [] with
    | some l' =>
      rw [hci] at h
      exact gapSearch_origin after l' cap h
    | none => rw [hci] at h; cases h
  | cons c rest ih =>
    intro cap h
    simp only [App.searchPattern] at h
    split at h
    · split at h
      · rename_i hg
        injection h with hcap
        subst hcap
        exact gapSearch_origin after _ _ hg
      · exact ih cap h
    · exact ih cap h

theorem searchPattern_strict (pat : List Char) (after : List Char → Option (List Char))
    (hafter : ∀ l cap, after l = some cap →
      App.parseCaptureStrict cap = some (App.parseCapture cap)) :
    ∀ (t : List Char) (cap : List Char), App.searchPattern pat after t = some cap →
      App.parseCaptureStrict cap = some (App.parseCapture cap) := by
  intro t cap h
  obtain ⟨l', h'⟩ := searchPattern_origin pat after t cap h
  exact hafter l' cap h'

theorem parsedCapE_ok (X : Option (List Char))
    (h : ∀ cap, X = some cap →
      App.parseCaptureStrict cap = some (App.parseCapture cap)) :
    App.parsedCapE X = Except.ok (X.map App.parseCapture) := by
  cases X with
  | none => rfl
  | some c =>
    show (match App.parseCaptureStrict c with
      | some v => Except.ok (some v)
      | none => Except.error "parseFloat produced NaN on a matched group") =
      Except.ok ((some c).map App.parseCapture)
    rw [h c rfl]
    rfl

/-- C3: the extractor is total: on every input text (budget and duration
included), the exception-aware model runs to completion with no error and
returns exactly the `ChartData` record of `extractChartDataFromResponse` —
every individual field degrades to its default when its pattern does not
match, and a matched group always parses as a number, so the `try/catch` of
the source can never fire.  (`prepareContent` is likewise a total function
of its input by construction.) -/
theorem extractChartData_total (text budget duration : String) :
    App.extractChartDataE text budget duration =
      Except.ok (App.extractChartDataFromResponse text budget duration) := by
  have h1 := parsedCapE_ok (App.roiCapture text.data)
    (searchPattern_strict _ _ numPercentAt_strict text.data)
  have h2 := parsedCapE_ok (App.savingsCapture text.data)
    (searchPattern_strict _ _ dollarAmountAt_strict text.data)
  have h3 := parsedCapE_ok (App.paybackCapture text.data)
    (searchPattern_strict _ _ numUnitAt_strict text.data)
  have h4 := parsedCapE_ok (App.npvCapture text.data)
    (searchPattern_strict _ _ dollarAmountAt_strict text.data)
  have h5 := parsedCapE_ok (App.totalCostCapture text.data)
    (searchPattern_strict _ _ dollarAmountAt_strict text.data)
  have h6 := parsedCapE_ok (App.totalBenefitCapture text.data)
    (searchPattern_strict _ _ dollarAmountAt_strict text.data)
  have h7 := parsedCapE_ok (App.annualBenefitCapture text.data)
    (searchPattern_strict _ _ dollarAmountAt_strict text.data)
  simp only [App.extractChartDataE]
  rw [h1, h2, h3, h4, h5, h6, h7]
  rfl

/-- Witness for the C10 theorem at a concrete state and context change. -/
theorem contextVersionEffect_reset_witness :
    ROIChat.isDrasticChange ⟨"v2", some ""⟩
        [⟨"a", ROIChat.Sender.user⟩, ⟨"b", ROIChat.Sender.assistant⟩,
          ⟨"c", ROIChat.Sender.user⟩] = true ∧
      (ROIChat.contextVersionEffect
          ⟨[⟨"a", ROIChat.Sender.user⟩, ⟨"b", ROIChat.Sender.assistant⟩,
            ⟨"c", ROIChat.Sender.user⟩], "sid0", "v1", false⟩
          ⟨"v2", some ""⟩ "abc123").messages =
        [{ content := ROIChat.newCalculationGreeting,
           sender := ROIChat.Sender.assistant }] ∧
      (ROIChat.contextVersionEffect
          ⟨[⟨"a", ROIChat.Sender.user⟩, ⟨"b", ROIChat.Sender.assistant⟩,
            ⟨"c", ROIChat.Sender.user⟩], "sid0", "v1", false⟩
          ⟨"v2", some ""⟩ "abc123").sessionId = "session_" ++ "abc123" := by
  refine ⟨by decide, ?_, ?_⟩
  · exact ((contextVersionEffect_reset_iff _ _ _ (by decide) (by decide)
      (by decide)).1 (by decide)).1
  · exact ((contextVersionEffect_reset_iff _ _ _ (by decide) (by decide)
      (by decide)).1 (by decide)).2.1

end ROICalc
